import Mathlib

/-! ## Definitions -/

/-- One iteration of the loop body of `_to_rle` (clips.py lines 835-845).
State is `(ranges, cur)` where `cur = some (start, last)` models
`start is not None` (in the source, `start` and `last` are always set and
cleared together).  The input `fb = (fn, b)` is one `(frame_number, bool)`
pair.  A run is flushed when `fn - last > tol + int(b)`; a true frame then
opens (or extends) a run. -/
def rleStep (tol : Int) (st : List (Int × Int) × Option (Int × Int))
    (fb : Int × Bool) : List (Int × Int) × Option (Int × Int) :=
  match st, fb with
  | (ranges, some (s, l)), (fn, b) =>
      if fn - l > tol + (if b then 1 else 0) then
        if b then (ranges ++ [(s, l)], some (fn, fn))
        else (ranges ++ [(s, l)], none)
      else
        if b then (ranges, some (s, fn)) else (ranges, some (s, l))
  | (ranges, none), (fn, b) =>
      if b then (ranges, some (fn, fn)) else (ranges, none)

/-- The final flush after the loop of `_to_rle` (clips.py lines 847-848). -/
def rleFinish (st : List (Int × Int) × Option (Int × Int)) : List (Int × Int) :=
  match st.2 with
  | some (s, l) => st.1 ++ [(s, l)]
  | none => st.1

/-- `_to_rle(frame_numbers, bools, tol, min_len)` (clips.py lines 828-853).
Returns `none` for an empty frame list; otherwise runs the loop over the
zipped sequences (Python's `zip` truncates to the shorter list), flushes the
trailing run, and applies the `min_len` filter only when `min_len > 1`. -/
def _to_rle (frame_numbers : List Int) (bools : List Bool) (tol : Int)
    (min_len : Int) : Option (List (Int × Int)) :=
  if frame_numbers.isEmpty then none
  else
    let ranges :=
      rleFinish ((frame_numbers.zip bools).foldl (rleStep tol) ([], none))
    if min_len > 1 then
      some (ranges.filter fun p => min_len ≤ p.2 - p.1 + 1)
    else
      some ranges

/-- Invariant of the RLE loop: `RleInv tol lb (ranges, cur)` holds after the
loop has processed all frames with numbers up to `lb`: every emitted range is
a nonempty interval, emitted ranges are separated by gaps of more than `tol`
false frames, the open run (if any) started no later than `lb`, and
everything emitted ended early enough that no later frame can violate the gap
discipline. -/
def RleInv (tol lb : Int) (st : List (Int × Int) × Option (Int × Int)) : Prop :=
  (∀ r ∈ st.1, r.1 ≤ r.2) ∧
  List.Pairwise (fun p q : Int × Int => p.2 + tol + 2 ≤ q.1) st.1 ∧
  (match st.2 with
   | some (s, l) => s ≤ l ∧ l ≤ lb ∧ ∀ r ∈ st.1, r.2 + tol + 2 ≤ s
   | none => ∀ r ∈ st.1, r.2 + tol + 1 ≤ lb)

/-- The `(frame_number, bool)` pairs of `n` consecutive frames starting at
`a`, all marked true. -/
def trueRun (a : Int) : Nat → List (Int × Bool)
  | 0 => []
  | n + 1 => (a, true) :: trueRun (a + 1) n

/-- Frames of one closed interval, as all-true `(frame_number, bool)` pairs. -/
def intervalPairs (r : Int × Int) : List (Int × Bool) :=
  trueRun r.1 (r.2 - r.1 + 1).toNat

/-- Flattening an interval list back into the per-frame sequence of its member
frame numbers, all marked true. -/
def flattenPairs (out : List (Int × Int)) : List (Int × Bool) :=
  out.flatMap intervalPairs

/-- The member frame numbers of an interval list, in order. -/
def flattenFrames (out : List (Int × Int)) : List Int :=
  (flattenPairs out).map Prod.fst

/-- Models `uuid.rsplit(".", 1)`, splitting at the last dot into
`(label, index)`.  Uuids built by `_get_trajectories` always contain a dot
(the aggregation concatenates `label`, `"."` and the index string); the no-dot
case, which would raise in Python on tuple unpacking, is modelled as an empty
index. -/
def rsplitDot (s : List Char) : List Char × List Char :=
  match s.reverse.dropWhile (· ≠ '.') with
  | [] => (s, [])
  | _ :: restTail =>
      (restTail.reverse, (s.reverse.takeWhile (· ≠ '.')).reverse)

/-- Models Python `int(...)` on the decimal string produced by
`index.to_string()`: an optional leading minus sign followed by digits. -/
def parseInt (s : List Char) : Int :=
  match s with
  | '-' :: rest => -(rest.foldl (fun n c => 10 * n + ((c.toNat : Int) - 48)) 0)
  | _ => s.foldl (fun n c => 10 * n + ((c.toNat : Int) - 48)) 0

/-- Models the `_Bounds` accumulator (clips.py lines 814-825): `min` and `max`
start unset and are always set and updated together, so the pair is one
`Option`; `add` initializes on first use and extends with `min`/`max` after. -/
def boundsAdd : Option (Int × Int) → Int → Option (Int × Int)
  | none, v => some (v, v)
  | some (mn, mx), v => some (min mn v, max mx v)

/-- One `obs[(label, index)].add(fn)` step (clips.py line 803).  Python's
`defaultdict` iterates in insertion order, modelled as an association list
that is updated in place for an existing key and extended at the end for a
new one. -/
def obsAdd (obs : List ((List Char × Int) × Option (Int × Int)))
    (key : List Char × Int) (fn : Int) :
    List ((List Char × Int) × Option (Int × Int)) :=
  if obs.any (fun e => e.1 = key) then
    obs.map (fun e => if e.1 = key then (e.1, boundsAdd e.2 fn) else e)
  else
    obs ++ [(key, boundsAdd none fn)]

/-- The loop over one frame's uuid list (clips.py lines 799-803):
`label, index = uuid.rsplit(".", 1)`; entries whose index string is empty are
skipped, the rest are grouped under `(label, int(index))`. -/
def processFrameUuids (obs : List ((List Char × Int) × Option (Int × Int)))
    (fn : Int) (frameUuids : List (List Char)) :
    List ((List Char × Int) × Option (Int × Int)) :=
  frameUuids.foldl
    (fun acc uuid =>
      let li := rsplitDot uuid
      if li.2 ≠ [] then obsAdd acc (li.1, parseInt li.2) fn else acc)
    obs

/-- Per-sample body of `_get_trajectories` (clips.py lines 789-809): `none`
when the sample has no uuid data (`if not sample_uuids`), otherwise the
`(label, index, bounds.min, bounds.max)` tuples in discovery order; frames
with a falsy (`None` or empty) uuid list are skipped
(`if not frame_uuids: continue`). -/
def sampleTrajectories (sampleFns : List Int)
    (sampleUuids : List (List (List Char))) :
    Option (List (List Char × Int × Option Int × Option Int)) :=
  if sampleUuids = [] then none
  else
    let obs := (sampleFns.zip sampleUuids).foldl
      (fun acc p => if p.2 = [] then acc else processFrameUuids acc p.1 p.2) []
    some (obs.map (fun e => (e.1.1, e.1.2, e.2.map Prod.fst, e.2.map Prod.snd)))

/-- `_get_trajectories` (clips.py lines 786-811) after the aggregation has
produced, per sample, the frame numbers and per-frame uuid lists.  (The
label-list type check guarding the extraction, lines 764-775, is modelled
with the builders below.) -/
def _get_trajectories
    (samples : List (List Int × List (List (List Char)))) :
    List (Option (List (List Char × Int × Option Int × Option Int))) :=
  samples.map (fun s => sampleTrajectories s.1 s.2)

/-- The label classes of `fiftyone.core.labels` that the clip logic branches
on; `genericLabel` stands for any other `fol.Label` subclass. -/
inductive LabelType
  | temporalDetection
  | temporalDetections
  | classification
  | detections
  | polylines
  | keypoints
  | genericLabel
deriving DecidableEq

/-- The supported types of `_write_temporal_detection_clips`
(clips.py line 572). -/
def tdSupportedTypes : List LabelType :=
  [LabelType.temporalDetection, LabelType.temporalDetections]

/-- The supported types of `_write_trajectories` (clips.py line 628). -/
def trajSupportedTypes : List LabelType :=
  [LabelType.detections, LabelType.polylines, LabelType.keypoints]

/-- Models the formatted `ValueError` message
`"Field '%s' must be a %s type; found %s"`: it names the offending field, the
supported-type set, and the actual type found. -/
structure ClipsError where
  fieldName : String
  supported : List LabelType
  found : LabelType
deriving DecidableEq

/-- The three shapes `make_clips_dataset` branches on (clips.py lines
416-430): a string field path, a `ViewExpression`/`dict`, and anything else
(literal per-sample interval lists). -/
inductive FieldOrExpr
  | fieldStr (name : String)
  | viewExpr
  | intervalLists
deriving DecidableEq

/-- The strategy classification of `make_clips_dataset` (clips.py lines
416-430), returning the `clips_type` string the source assigns.  The source
collection's schema is abstracted by the two predicates the code consults:
`_is_frame_field` and `_is_frame_support_field`. -/
def classifyClips (isFrameField : String → Bool)
    (isFrameSupportField : String → Bool) (fieldOrExpr : FieldOrExpr)
    (trajectories : Bool) : String :=
  match fieldOrExpr with
  | FieldOrExpr.fieldStr name =>
      if isFrameField name then
        if trajectories then "trajectories" else "expression"
      else
        if isFrameSupportField name then "support" else "detections"
  | FieldOrExpr.viewExpr => "expression"
  | FieldOrExpr.intervalLists => "manual"

/-- A source temporal-detection label document: its document id and its frame
support. -/
structure TDLabel where
  id : Nat
  support : Int × Int
deriving DecidableEq

/-- A source sample as consumed by `_write_temporal_detection_clips`: the
sample id and the detections in the clipped field (a single element for a
`TemporalDetection` field; the unwound list for `TemporalDetections`). -/
structure TDSample where
  id : Nat
  dets : List TDLabel
deriving DecidableEq

/-- A clip record materialized by the temporal-detection pipeline. -/
structure ClipRecord where
  id : Nat
  sampleId : Nat
  support : Int × Int
  cls : String
deriving DecidableEq

/-- Per-record semantics of the `$set` stage of the temporal-detection
pipeline (clips.py lines 605-619): the clip's `_id` is set to the label
document's `_id` (`"_id": "$" + field + "._id"`), `support` is pulled out of
the label, and the label's `_cls` is rewritten to `"Classification"`. -/
def tdClipRecord (sampleId : Nat) (det : TDLabel) : ClipRecord :=
  { id := det.id, sampleId := sampleId, support := det.support,
    cls := "Classification" }

/-- `_write_temporal_detection_clips` (clips.py lines 566-621): the label-type
guard runs before the pipeline is built or submitted, so an unsupported type
produces the error and no clip records. -/
def _write_temporal_detection_clips (field : String) (labelType : LabelType)
    (samples : List TDSample) : Except ClipsError (List ClipRecord) :=
  if labelType ∈ tdSupportedTypes then
    Except.ok (samples.flatMap (fun s => s.dets.map (tdClipRecord s.id)))
  else
    Except.error ⟨field, tdSupportedTypes, labelType⟩

/-- The side-effecting statements of the trajectories/manual/expression
builders, in source order. -/
inductive Stmt
  | setValues (field : String)
  | aggregate
  | cleanup (field : String)
deriving DecidableEq

/-- Straight-line execution of a builder's statements: each completed
statement appends its effect; a failing aggregation (`aggOk = false`) raises,
contributing no completed effect and aborting the remaining statements (the
source has no `try`/`finally`).  Returns the executed effects and whether
execution completed. -/
def runStmts (aggOk : Bool) : List Stmt → List Stmt × Bool
  | [] => ([], true)
  | Stmt.aggregate :: rest =>
      if aggOk then
        (Stmt.aggregate :: (runStmts aggOk rest).1, (runStmts aggOk rest).2)
      else ([], false)
  | s :: rest => (s :: (runStmts aggOk rest).1, (runStmts aggOk rest).2)

/-- The statements of `_write_trajectories` after trajectory extraction
(clips.py lines 636-689): write the temporary `"_" + field` values onto the
source collection, submit the aggregation, then `update_many` with `$unset`
to remove the temporary field. -/
def trajectoriesStmts (field : String) : List Stmt :=
  [Stmt.setValues ("_" ++ field), Stmt.aggregate, Stmt.cleanup ("_" ++ field)]

/-- The statements of `_write_manual_clips` (clips.py lines 717-759): write
the temporary `"_support"` field, submit the aggregation, then unset it. -/
def manualClipsStmts : List Stmt :=
  [Stmt.setValues "_support", Stmt.aggregate, Stmt.cleanup "_support"]

/-- `_write_manual_clips` as an effect trace. -/
def _write_manual_clips (aggOk : Bool) : List Stmt × Bool :=
  runStmts aggOk manualClipsStmts

/-- `_write_expr_clips` (clips.py lines 692-714) computes the RLE clips
client-side and then delegates to `_write_manual_clips`. -/
def _write_expr_clips (aggOk : Bool) : List Stmt × Bool :=
  _write_manual_clips aggOk

/-- `_write_trajectories` (clips.py lines 624-689): the label-type guard runs
first; on a supported type the builder executes its statements. -/
def _write_trajectories (field : String) (labelType : LabelType)
    (aggOk : Bool) : Except ClipsError (List Stmt × Bool) :=
  if labelType ∈ trajSupportedTypes then
    Except.ok (runStmts aggOk (trajectoriesStmts field))
  else
    Except.error ⟨field, trajSupportedTypes, labelType⟩

/-- A record of the clips dataset as read by `_sync_source` (clips.py lines
288-293): the clip id (which equals the source label id under the
temporal-detection strategy), the originating sample id, the clip's support,
and the raw document of the classification field (`none` when cleared or
absent; the payload string stands for the remaining document contents). -/
structure ClipRec where
  id : Nat
  sampleId : Nat
  support : Int × Int
  doc : Option String
deriving DecidableEq

/-- A label document written back to the source: the payload together with
the support stamped onto it (the code also stamps
`_cls = "TemporalDetection"`). -/
structure SyncDoc where
  payload : String
  support : Int × Int
deriving DecidableEq

/-- Effects performed on the source collection by the sync logic:
`_set_labels(field, sample_ids, docs)` and
`_delete_labels(label_ids, fields)`. -/
inductive SrcEffect
  | setLabels (field : String) (sampleIds : List Nat)
      (docs : List (Option SyncDoc))
  | deleteLabels (labelIds : List Nat) (fields : List String)
deriving DecidableEq

/-- Insertion into Python's `del_ids = set()`, modelled as a duplicate-free
list extended only when the id is new. -/
def insertOnce (l : List Nat) (x : Nat) : List Nat :=
  if x ∈ l then l else l ++ [x]

/-- The body of the first loop of `_sync_source` (clips.py lines 291-300):
a doc-bearing clip contributes its sample id and its doc (with support
stamped) to the update lists; a docless clip adds its label id to
`del_ids`. -/
def syncLoopStep (acc : List Nat × List SyncDoc × List Nat) (c : ClipRec) :
    List Nat × List SyncDoc × List Nat :=
  match c.doc with
  | some d => (acc.1 ++ [c.sampleId], acc.2.1 ++ [⟨d, c.support⟩], acc.2.2)
  | none => (acc.1, acc.2.1, insertOnce acc.2.2 c.id)

/-- The first loop of `_sync_source` over the synced view's records,
producing `(update_ids, update_docs, del_ids)`. -/
def syncLoop (viewClips : List ClipRec) : List Nat × List SyncDoc × List Nat :=
  viewClips.foldl syncLoopStep ([], [], [])

/-- The delete pass of `_sync_source` (clips.py lines 302-308): when
`delete=True`, every record of the full clips dataset whose `sample_id` is
not among the observed update ids adds its label id to `del_ids`. -/
def syncDelIds (delete : Bool) (updateIds delIds0 : List Nat)
    (allClips : List (Nat × Nat)) : List Nat :=
  if delete then
    allClips.foldl
      (fun acc p => if p.2 ∈ updateIds then acc else insertOnce acc p.1)
      delIds0
  else delIds0

/-- The effects of `_sync_source` once the classification field applies
(clips.py lines 281-316): `_set_labels` when `update`, then `_delete_labels`
when `del_ids` is nonempty. -/
def syncSourceBody (field : String) (viewClips : List ClipRec)
    (allClips : List (Nat × Nat)) (update delete : Bool) : List SrcEffect :=
  let acc := syncLoop viewClips
  let delIds := syncDelIds delete acc.1 acc.2.2 allClips
  (if update then
      [SrcEffect.setLabels field acc.1 (acc.2.1.map some)]
    else []) ++
    (if delIds.isEmpty then [] else [SrcEffect.deleteLabels delIds [field]])

/-- `_sync_source` (clips.py lines 272-316): a no-op when the view has no
classification field, or when a `fields` restriction excludes it.  The
`viewClips` argument stands for the records of `sync_view` (the view itself,
or the id-selected snapshot in the `set_values` path); `allClips` for the
`(id, sample_id)` pairs of the full clips dataset. -/
def _sync_source (classificationField : Option String)
    (fields : Option (List String)) (viewClips : List ClipRec)
    (allClips : List (Nat × Nat)) (update delete : Bool) : List SrcEffect :=
  match classificationField with
  | none => []
  | some field =>
      match fields with
      | some fs =>
          if field ∈ fs then
            syncSourceBody field viewClips allClips update delete
          else []
      | none => syncSourceBody field viewClips allClips update delete

/-- `_sync_source_sample` (clips.py lines 254-270): a no-op without a
classification field; otherwise one `_set_labels` call for the clip's sample
carrying the (possibly cleared) classification with the clip's support. -/
def _sync_source_sample (classificationField : Option String)
    (sampleId : Nat) (support : Int × Int) (cls : Option String) :
    List SrcEffect :=
  match classificationField with
  | none => []
  | some field =>
      [SrcEffect.setLabels field [sampleId] [cls.map (fun c => ⟨c, support⟩)]]

/-- `ClipsView._get_temporal_detection_field` (clips.py lines 94-104): the
stage's field when it validates as a `TemporalDetection`/`TemporalDetections`
field of the source collection; any validation failure is caught and yields
`None`. -/
def _get_temporal_detection_field (schemaLabelType : String → Option LabelType)
    (stageField : String) : Option String :=
  match schemaLabelType stageField with
  | some lt => if lt ∈ tdSupportedTypes then some stageField else none
  | none => none

/-- Models `field_name.split(".", 1)[0]` (clips.py line 178). -/
def fieldRoot (s : String) : String :=
  (s.toList.takeWhile (fun c => c ≠ '.')).asString

/-- Source effects of `ClipView.save()` (clips.py lines 47-50), which calls
`_sync_source_sample` after writing the clip. -/
def clipViewSaveEffects (cf : Option String) (sampleId : Nat)
    (support : Int × Int) (cls : Option String) : List SrcEffect :=
  _sync_source_sample cf sampleId support cls

/-- Source effects of `ClipsView.save(fields)` (clips.py lines 181-204):
`_sync_source(fields=fields)` with defaults `update=True`, `delete=False`. -/
def clipsViewSaveEffects (cf : Option String) (fields : Option (List String))
    (viewClips : List ClipRec) (allClips : List (Nat × Nat)) :
    List SrcEffect :=
  _sync_source cf fields viewClips allClips true false

/-- Source effects of `ClipsView.keep()` (clips.py lines 206-218):
`_sync_source(update=False, delete=True)`. -/
def clipsViewKeepEffects (cf : Option String) (viewClips : List ClipRec)
    (allClips : List (Nat × Nat)) : List SrcEffect :=
  _sync_source cf none viewClips allClips false true

/-- Source effects of `ClipsView.set_values(field_name, ...)` (clips.py lines
168-179): `_sync_source(fields=[field_name.split(".", 1)[0]], ids=ids)` with
defaults `update=True`, `delete=False`. -/
def clipsViewSetValuesEffects (cf : Option String) (fieldName : String)
    (viewClips : List ClipRec) (allClips : List (Nat × Nat)) :
    List SrcEffect :=
  _sync_source cf (some [fieldRoot fieldName]) viewClips allClips true false

/-! ## Lemmas and claims -/

lemma rleStep_none_true (tol : Int) (R : List (Int × Int)) (fn : Int) :
    rleStep tol (R, none) (fn, true) = (R, some (fn, fn)) := rfl

lemma rleStep_none_false (tol : Int) (R : List (Int × Int)) (fn : Int) :
    rleStep tol (R, none) (fn, false) = (R, none) := rfl

lemma rleStep_some_true_flush {tol s l fn : Int} (R : List (Int × Int))
    (h : fn - l > tol + 1) :
    rleStep tol (R, some (s, l)) (fn, true) = (R ++ [(s, l)], some (fn, fn)) := by
  simp [rleStep, h]

lemma rleStep_some_true_cont {tol s l fn : Int} (R : List (Int × Int))
    (h : ¬fn - l > tol + 1) :
    rleStep tol (R, some (s, l)) (fn, true) = (R, some (s, fn)) := by
  simp [rleStep, h]

lemma rleStep_some_false_flush {tol s l fn : Int} (R : List (Int × Int))
    (h : fn - l > tol) :
    rleStep tol (R, some (s, l)) (fn, false) = (R ++ [(s, l)], none) := by
  simp [rleStep, h]

lemma rleStep_some_false_cont {tol s l fn : Int} (R : List (Int × Int))
    (h : ¬fn - l > tol) :
    rleStep tol (R, some (s, l)) (fn, false) = (R, some (s, l)) := by
  simp [rleStep, h]

lemma rleStep_inv {tol lb : Int} (htol : 0 ≤ tol)
    {st : List (Int × Int) × Option (Int × Int)} {fn : Int} {b : Bool}
    (hinv : RleInv tol lb st) (hlt : lb < fn) :
    RleInv tol fn (rleStep tol st (fn, b)) := by
  obtain ⟨ranges, cur⟩ := st
  cases cur with
  | none =>
      obtain ⟨hle, hpw, hcur⟩ := hinv
      simp only [RleInv] at hcur
      cases b with
      | false =>
          rw [rleStep_none_false]
          refine ⟨hle, hpw, ?_⟩
          intro r hr
          have := hcur r hr
          omega
      | true =>
          rw [rleStep_none_true]
          refine ⟨hle, hpw, le_refl fn, le_refl fn, ?_⟩
          intro r hr
          have := hcur r hr
          omega
  | some sl =>
      obtain ⟨s, l⟩ := sl
      obtain ⟨hle, hpw, hcur⟩ := hinv
      simp only [RleInv] at hcur
      obtain ⟨hsl, hllb, hsep⟩ := hcur
      cases b with
      | true =>
          by_cases hflush : fn - l > tol + 1
          · rw [rleStep_some_true_flush ranges hflush]
            refine ⟨?_, ?_, le_refl fn, le_refl fn, ?_⟩
            · intro r hr
              rcases List.mem_append.mp hr with h | h
              · exact hle r h
              · rw [List.mem_singleton] at h
                subst h
                exact hsl
            · rw [List.pairwise_append]
              refine ⟨hpw, by simp, ?_⟩
              intro a ha c hc
              rw [List.mem_singleton] at hc
              subst hc
              exact hsep a ha
            · intro r hr
              rcases List.mem_append.mp hr with h | h
              · have h1 := hsep r h
                omega
              · rw [List.mem_singleton] at h
                subst h
                show l + tol + 2 ≤ fn
                omega
          · rw [rleStep_some_true_cont ranges hflush]
            exact ⟨hle, hpw, by omega, le_refl fn, hsep⟩
      | false =>
          by_cases hflush : fn - l > tol
          · rw [rleStep_some_false_flush ranges hflush]
            refine ⟨?_, ?_, ?_⟩
            · intro r hr
              rcases List.mem_append.mp hr with h | h
              · exact hle r h
              · rw [List.mem_singleton] at h
                subst h
                exact hsl
            · rw [List.pairwise_append]
              refine ⟨hpw, by simp, ?_⟩
              intro a ha c hc
              rw [List.mem_singleton] at hc
              subst hc
              exact hsep a ha
            · intro r hr
              rcases List.mem_append.mp hr with h | h
              · have h1 := hsep r h
                omega
              · rw [List.mem_singleton] at h
                subst h
                show l + tol + 1 ≤ fn
                omega
          · rw [rleStep_some_false_cont ranges hflush]
            exact ⟨hle, hpw, hsl, by omega, hsep⟩

lemma rleFold_inv {tol : Int} (htol : 0 ≤ tol) (l : List (Int × Bool)) :
    ∀ (lb : Int) (st : List (Int × Int) × Option (Int × Int)),
      RleInv tol lb st →
      List.Chain' (fun a b : Int × Bool => a.1 < b.1) l →
      (∀ fb ∈ l.head?, lb < fb.1) →
      ∃ lb', RleInv tol lb' (l.foldl (rleStep tol) st) := by
  induction l with
  | nil => exact fun lb st hinv _ _ => ⟨lb, hinv⟩
  | cons fb rest ih =>
      rintro lb st hinv hchain hhead
      obtain ⟨fn, b⟩ := fb
      rw [List.foldl_cons]
      obtain ⟨hh, hc⟩ := List.chain'_cons'.mp hchain
      exact ih fn _ (rleStep_inv htol hinv (hhead (fn, b) rfl)) hc hh

lemma rleFold_inv_start {tol : Int} (htol : 0 ≤ tol) (l : List (Int × Bool))
    (hchain : List.Chain' (fun a b : Int × Bool => a.1 < b.1) l) :
    ∃ lb, RleInv tol lb (l.foldl (rleStep tol) ([], none)) := by
  cases l with
  | nil => exact ⟨0, by simp [RleInv]⟩
  | cons fb rest =>
      refine rleFold_inv htol (fb :: rest) (fb.1 - 1) ([], none) (by simp [RleInv])
        hchain ?_
      intro x hx
      simp only [List.head?_cons, Option.mem_def, Option.some.injEq] at hx
      subst hx
      omega

lemma rleFinish_ok {tol lb : Int} {st : List (Int × Int) × Option (Int × Int)}
    (hinv : RleInv tol lb st) :
    (∀ r ∈ rleFinish st, r.1 ≤ r.2) ∧
      List.Pairwise (fun p q : Int × Int => p.2 + tol + 2 ≤ q.1) (rleFinish st) := by
  obtain ⟨ranges, cur⟩ := st
  cases cur with
  | none => exact ⟨hinv.1, hinv.2.1⟩
  | some sl =>
      obtain ⟨s, l⟩ := sl
      obtain ⟨hle, hpw, hcur⟩ := hinv
      simp only [RleInv] at hcur
      obtain ⟨hsl, _, hsep⟩ := hcur
      simp only [rleFinish]
      constructor
      · intro r hr
        rcases List.mem_append.mp hr with h | h
        · exact hle r h
        · rw [List.mem_singleton] at h
          subst h
          exact hsl
      · rw [List.pairwise_append]
        refine ⟨hpw, by simp, ?_⟩
        intro a ha c hc
        rw [List.mem_singleton] at hc
        subst hc
        exact hsep a ha

lemma chain'_fst_zip : ∀ {l1 : List Int} (l2 : List Bool),
    List.Chain' (· < ·) l1 →
    List.Chain' (fun a b : Int × Bool => a.1 < b.1) (l1.zip l2)
  | [], _, _ => by simp
  | [_], l2, _ => by cases l2 <;> simp
  | _ :: _ :: _, [], _ => by simp
  | a :: a' :: t, b :: l2, h => by
      cases l2 with
      | nil => simp
      | cons b' t2 =>
          rw [List.zip_cons_cons, List.zip_cons_cons]
          refine List.chain'_cons.mpr ⟨(List.chain'_cons.mp h).1, ?_⟩
          have := chain'_fst_zip (b' :: t2) (List.chain'_cons.mp h).2
          rwa [List.zip_cons_cons] at this

lemma _to_rle_rangesOk {fns : List Int} {bs : List Bool} {tol min_len : Int}
    (htol : 0 ≤ tol) (hmono : List.Chain' (· < ·) fns)
    {out : List (Int × Int)} (hout : _to_rle fns bs tol min_len = some out) :
    (∀ r ∈ out, r.1 ≤ r.2) ∧
      List.Pairwise (fun p q : Int × Int => p.2 + tol + 2 ≤ q.1) out := by
  simp only [_to_rle] at hout
  by_cases hemp : fns.isEmpty
  · simp [hemp] at hout
  · rw [if_neg hemp] at hout
    obtain ⟨lb, hinv⟩ := rleFold_inv_start htol (fns.zip bs) (chain'_fst_zip bs hmono)
    have hok := rleFinish_ok hinv
    by_cases hml : min_len > 1
    · rw [if_pos hml, Option.some_inj] at hout
      subst hout
      refine ⟨?_, List.Pairwise.sublist (List.filter_sublist _) hok.2⟩
      intro r hrm
      exact hok.1 r (List.mem_of_mem_filter hrm)
    · rw [if_neg hml, Option.some_inj] at hout
      subst hout
      exact hok

/-- C6: for every strictly increasing sequence of integer frame numbers with a
parallel boolean sequence of equal length, and every `tol ≥ 0` and
`min_len ≥ 0`, the non-`None` output of `_to_rle` is a list of pairwise
disjoint intervals sorted in ascending order, each satisfying
`start ≤ end`. -/
theorem _to_rle_sorted_disjoint (fns : List Int) (bs : List Bool)
    (tol min_len : Int) (htol : 0 ≤ tol) (hml : 0 ≤ min_len)
    (hlen : fns.length = bs.length) (hmono : List.Chain' (· < ·) fns)
    (out : List (Int × Int)) (hout : _to_rle fns bs tol min_len = some out) :
    (∀ r ∈ out, r.1 ≤ r.2) ∧
      List.Pairwise (fun p q : Int × Int => p.2 < q.1) out := by
  obtain ⟨h1, h2⟩ := _to_rle_rangesOk htol hmono hout
  refine ⟨h1, h2.imp ?_⟩
  intro p q h
  omega

/-- Witness for `_to_rle_sorted_disjoint` at a concrete input. -/
theorem _to_rle_sorted_disjoint_witness :
    (∀ r ∈ [((1 : Int), (1 : Int)), (5, 5)], r.1 ≤ r.2) ∧
      List.Pairwise (fun p q : Int × Int => p.2 < q.1)
        [((1 : Int), (1 : Int)), (5, 5)] :=
  _to_rle_sorted_disjoint [1, 2, 5] [true, false, true] 0 0 (by decide)
    (by decide) (by decide) (by norm_num [List.chain'_cons, List.chain'_singleton])
    [(1, 1), (5, 5)] (by decide)

/-- C3 (amended): on frames `[1,2,3,4,5,6]` with booleans `[T,T,F,F,T,T]`,
`_to_rle` returns `[(1,2),(5,6)]` for `tol = 0` and also for `tol = 1` (at
frame 4 the current frame's boolean is false, so the allowed distance from the
last true frame 2 is `tol + 0 = 1 < 2` and the run flushes); `tol = 2` is
needed to bridge the two-false-frame gap into `[(1,6)]`. -/
theorem _to_rle_example_values :
    _to_rle [1, 2, 3, 4, 5, 6] [true, true, false, false, true, true] 0 0
        = some [(1, 2), (5, 6)] ∧
      _to_rle [1, 2, 3, 4, 5, 6] [true, true, false, false, true, true] 1 0
        = some [(1, 2), (5, 6)] ∧
      _to_rle [1, 2, 3, 4, 5, 6] [true, true, false, false, true, true] 2 0
        = some [(1, 6)] := by decide

/-- C3 counterexample: with `tol = 1` the result is not `[(1,6)]` as the claim
states. -/
theorem _to_rle_example_tol1_cex :
    _to_rle [1, 2, 3, 4, 5, 6] [true, true, false, false, true, true] 1 0
      ≠ some [(1, 6)] := by decide

lemma trueRun_length : ∀ (n : Nat) (a : Int), (trueRun a n).length = n
  | 0, _ => rfl
  | n + 1, a => by simp [trueRun, trueRun_length n (a + 1)]

lemma trueRun_snd_true : ∀ (n : Nat) (a : Int), ∀ x ∈ trueRun a n, x.2 = true
  | 0, _ => by simp [trueRun]
  | n + 1, a => by
      intro x hx
      rcases List.mem_cons.mp hx with rfl | hx
      · rfl
      · exact trueRun_snd_true n (a + 1) x hx

lemma foldl_trueRun {tol : Int} (htol : 0 ≤ tol) :
    ∀ (n : Nat) (a p : Int) (R : List (Int × Int)),
      (trueRun a n).foldl (rleStep tol) (R, some (p, a - 1))
        = (R, some (p, a + n - 1)) := by
  intro n
  induction n with
  | zero => intro a p R; simp [trueRun]
  | succ m ih =>
      intro a p R
      rw [show trueRun a (m + 1) = (a, true) :: trueRun (a + 1) m from rfl,
        List.foldl_cons,
        rleStep_some_true_cont R (by omega : ¬a - (a - 1) > tol + 1)]
      have h1 := ih (a + 1) p R
      rw [show a + 1 - 1 = a from by ring] at h1
      rw [h1, show a + 1 + (m : Int) - 1 = a + ((m + 1 : Nat) : Int) - 1 from by
        push_cast; ring]

lemma foldl_trueRun_start {tol : Int} (htol : 0 ≤ tol) (n : Nat) (hn : n ≠ 0)
    (a : Int) (R : List (Int × Int)) :
    (trueRun a n).foldl (rleStep tol) (R, none) = (R, some (a, a + n - 1)) := by
  obtain ⟨m, rfl⟩ := Nat.exists_eq_succ_of_ne_zero hn
  rw [show trueRun a (m + 1) = (a, true) :: trueRun (a + 1) m from rfl,
    List.foldl_cons, rleStep_none_true]
  have h1 := foldl_trueRun htol m (a + 1) a R
  rw [show a + 1 - 1 = a from by ring] at h1
  rw [h1, show a + 1 + (m : Int) - 1 = a + ((m + 1 : Nat) : Int) - 1 from by
    push_cast; ring]

lemma foldl_trueRun_flush {tol : Int} (htol : 0 ≤ tol) (n : Nat) (hn : n ≠ 0)
    {a p q : Int} (R : List (Int × Int)) (hgap : q + tol + 2 ≤ a) :
    (trueRun a n).foldl (rleStep tol) (R, some (p, q))
      = (R ++ [(p, q)], some (a, a + n - 1)) := by
  obtain ⟨m, rfl⟩ := Nat.exists_eq_succ_of_ne_zero hn
  rw [show trueRun a (m + 1) = (a, true) :: trueRun (a + 1) m from rfl,
    List.foldl_cons, rleStep_some_true_flush R (by omega : a - q > tol + 1)]
  have h1 := foldl_trueRun htol m (a + 1) a (R ++ [(p, q)])
  rw [show a + 1 - 1 = a from by ring] at h1
  rw [h1, show a + 1 + (m : Int) - 1 = a + ((m + 1 : Nat) : Int) - 1 from by
    push_cast; ring]

lemma rleRebuild_aux : ∀ (out : List (Int × Int)) (R : List (Int × Int))
    (p q : Int), (∀ r ∈ out, r.1 ≤ r.2) →
    List.Chain' (fun x y : Int × Int => x.2 + 2 ≤ y.1) ((p, q) :: out) →
    rleFinish ((flattenPairs out).foldl (rleStep 0) (R, some (p, q)))
      = R ++ (p, q) :: out := by
  intro out
  induction out with
  | nil =>
      intro R p q _ _
      simp [flattenPairs, rleFinish]
  | cons r rest ih =>
      intro R p q hle hchain
      obtain ⟨s, l⟩ := r
      have hsl : s ≤ l := hle (s, l) (List.mem_cons_self _ _)
      have hn : (l - s + 1).toNat ≠ 0 := by omega
      have hgap : q + 2 ≤ s := (List.chain'_cons.mp hchain).1
      rw [show flattenPairs ((s, l) :: rest)
          = trueRun s (l - s + 1).toNat ++ flattenPairs rest from rfl,
        List.foldl_append,
        foldl_trueRun_flush (le_refl 0) _ hn R (by omega),
        show s + ((l - s + 1).toNat : Int) - 1 = l from by omega,
        ih (R ++ [(p, q)]) s l (fun x hx => hle x (List.mem_cons_of_mem _ hx))
          (List.chain'_cons.mp hchain).2]
      simp

lemma zip_replicate_true : ∀ (l : List (Int × Bool)), (∀ x ∈ l, x.2 = true) →
    (l.map Prod.fst).zip (List.replicate (l.map Prod.fst).length true) = l := by
  intro l
  induction l with
  | nil => simp
  | cons x t ih =>
      obtain ⟨x1, x2⟩ := x
      intro h
      have hx : x2 = true := h (x1, x2) (List.mem_cons_self _ _)
      subst hx
      simp only [List.map_cons, List.length_cons, List.replicate_succ,
        List.zip_cons_cons]
      rw [ih (fun y hy => h y (List.mem_cons_of_mem _ hy))]

lemma flattenPairs_true (out : List (Int × Int)) :
    ∀ x ∈ flattenPairs out, x.2 = true := by
  intro x hx
  simp only [flattenPairs, List.mem_flatMap] at hx
  obtain ⟨r, _, hr⟩ := hx
  exact trueRun_snd_true _ _ x hr

lemma _to_rle_eq_of_ne_nil {fns : List Int} (bs : List Bool) (h : fns ≠ []) :
    _to_rle fns bs 0 0
      = some (rleFinish ((fns.zip bs).foldl (rleStep 0) ([], none))) := by
  simp only [_to_rle]
  rw [if_neg (by simpa [List.isEmpty_iff] using h)]
  norm_num

/-- C7 (amended): for every output of `_to_rle` on a strictly increasing frame
sequence with `tol = 0` and `min_len = 0`, if the returned interval list is
nonempty, then flattening the intervals back into the per-frame sequence of
their member frame numbers (all marked true) and applying `_to_rle` again with
`tol = 0` yields the same interval list.  (The empty interval list is the one
exception: its flattened frame sequence is empty and `_to_rle` returns `None`
on empty input, not `[]` — see the counterexample.) -/
theorem _to_rle_reencode (fns : List Int) (bs : List Bool)
    (out : List (Int × Int)) (hmono : List.Chain' (· < ·) fns)
    (hout : _to_rle fns bs 0 0 = some out) (hne : out ≠ []) :
    _to_rle (flattenFrames out)
        (List.replicate (flattenFrames out).length true) 0 0 = some out := by
  obtain ⟨hle, hpw⟩ := _to_rle_rangesOk (le_refl 0) hmono hout
  have hchain : List.Chain' (fun x y : Int × Int => x.2 + 2 ≤ y.1) out :=
    hpw.chain'.imp (fun {a b} h => by omega)
  obtain ⟨⟨p, q⟩, rest, rfl⟩ : ∃ x xs, out = x :: xs := by
    cases out with
    | nil => exact absurd rfl hne
    | cons x xs => exact ⟨x, xs, rfl⟩
  have hpq : p ≤ q := hle (p, q) (List.mem_cons_self _ _)
  have hn : (q - p + 1).toNat ≠ 0 := by omega
  have hne2 : flattenFrames ((p, q) :: rest) ≠ [] := by
    have hlen : (flattenFrames ((p, q) :: rest)).length ≠ 0 := by
      simp only [flattenFrames, List.length_map, flattenPairs,
        List.flatMap_cons, List.length_append, intervalPairs, trueRun_length]
      omega
    intro hcontra
    rw [hcontra] at hlen
    exact hlen rfl
  rw [_to_rle_eq_of_ne_nil _ hne2, Option.some_inj]
  rw [show flattenFrames ((p, q) :: rest)
      = (flattenPairs ((p, q) :: rest)).map Prod.fst from rfl,
    zip_replicate_true _ (flattenPairs_true _)]
  rw [show flattenPairs ((p, q) :: rest)
      = trueRun p (q - p + 1).toNat ++ flattenPairs rest from rfl,
    List.foldl_append, foldl_trueRun_start (le_refl 0) _ hn p [],
    show p + ((q - p + 1).toNat : Int) - 1 = q from by omega,
    rleRebuild_aux rest [] p q
      (fun x hx => hle x (List.mem_cons_of_mem _ hx)) hchain]
  simp

/-- Witness for `_to_rle_reencode` at a concrete input. -/
theorem _to_rle_reencode_witness :
    _to_rle (flattenFrames [(1, 2)])
        (List.replicate (flattenFrames [(1, 2)]).length true) 0 0
      = some [(1, 2)] :=
  _to_rle_reencode [1, 2] [true, true] [(1, 2)]
    (by norm_num [List.chain'_cons, List.chain'_singleton]) (by decide)
    (by decide)

/-- C7 counterexample: the all-false input `[1]`, `[false]` yields the empty
interval list, whose flattened frame sequence is empty; re-encoding the empty
sequence yields `None`, not the same (empty) interval list, so the claim fails
as universally stated. -/
theorem _to_rle_reencode_empty_cex :
    _to_rle [1] [false] 0 0 = some [] ∧
      _to_rle (flattenFrames []) (List.replicate (flattenFrames []).length true)
          0 0 ≠ some [] := by
  refine ⟨by decide, ?_⟩
  intro h
  simpa [flattenFrames, flattenPairs, _to_rle] using h

/-- C8: trajectory extraction groups per-frame observations by
`(label, index)` and records the minimum and maximum observed frame for each
key: for a sample with detections labelled `"car"`, index 1 at frames
`[2,5,9]` and index 2 at frames `[3,3]` (frame 3 lists that uuid twice), the
output for that sample is exactly `("car",1,2,9)` and `("car",2,3,3)` in
discovery order, and the unindexed observation `"car."` at frame 9
contributes nothing. -/
theorem _get_trajectories_example :
    _get_trajectories
        [([2, 3, 5, 9],
          [["car.1".toList], ["car.2".toList, "car.2".toList],
           ["car.1".toList], ["car.1".toList, "car.".toList]])]
      = [some [("car".toList, 1, some 2, some 9),
               ("car".toList, 2, some 3, some 3)]] := by rfl

/-- C1 counterexample: when the aggregation raises (`aggOk = false`), both the
trajectories builder and the manual builder (to which the expression builder
delegates) stop at the failed aggregation: execution does not complete and
the `$unset` cleanup of the temporary field (`"_detections"` resp.
`"_support"`) is never executed, so the temporary field is not removed before
the error propagates. -/
theorem cleanup_missing_on_failure_cex :
    (runStmts false (trajectoriesStmts "detections")).2 = false ∧
      Stmt.cleanup "_detections"
          ∉ (runStmts false (trajectoriesStmts "detections")).1 ∧
      (_write_manual_clips false).2 = false ∧
      Stmt.cleanup "_support" ∉ (_write_manual_clips false).1 := by
  decide

/-- C1 (amended): for the trajectories, manual and expression clip builders,
the temporary per-sample field (`'_' + field`, or `'_support'`) is removed
from the source collection on the success path — and only there: the cleanup
statement executes iff the aggregation pipeline succeeded, since the source
has no `try`/`finally` and a raising aggregation propagates before the
cleanup runs. -/
theorem cleanup_success_path_only (field : String) (aggOk : Bool) :
    (Stmt.cleanup ("_" ++ field)
          ∈ (runStmts aggOk (trajectoriesStmts field)).1 ↔ aggOk = true) ∧
      (Stmt.cleanup "_support" ∈ (_write_manual_clips aggOk).1
        ↔ aggOk = true) ∧
      (Stmt.cleanup "_support" ∈ (_write_expr_clips aggOk).1
        ↔ aggOk = true) := by
  cases aggOk <;>
    simp [runStmts, trajectoriesStmts, manualClipsStmts, _write_manual_clips,
      _write_expr_clips]

/-- C4 counterexample: a string naming a sample-level field (`isFrameField`
false) that is not a frame-support field is classified as the
temporal-detection strategy (`clips_type = "detections"`), not `"manual"`,
even when the field's declared type is unsupported — in which case the
dispatched builder raises instead of treating the request as literal interval
lists. -/
theorem classify_sample_field_cex :
    classifyClips (fun _ => false) (fun _ => false)
        (FieldOrExpr.fieldStr "events") false = "detections" ∧
      "detections" ≠ "manual" ∧
      _write_temporal_detection_clips "events" LabelType.detections []
        = Except.error ⟨"events", tdSupportedTypes, LabelType.detections⟩ := by
  refine ⟨rfl, by decide, by rfl⟩

/-- C4 (amended): in `make_clips_dataset`, a string naming a sample-level
field that is not a frame-support field is always classified as the
temporal-detection strategy, regardless of the field's declared type; when
that type is unsupported, `_write_temporal_detection_clips` subsequently
raises a `ValueError`.  The manual strategy is selected only when
`field_or_expr` is neither a string nor an expression/dict. -/
theorem classify_sample_field_detections (name : String)
    (isFrameField isFrameSupportField : String → Bool) (lt : LabelType)
    (samples : List TDSample)
    (h1 : isFrameField name = false) (h2 : isFrameSupportField name = false)
    (h3 : lt ∉ tdSupportedTypes) :
    classifyClips isFrameField isFrameSupportField
        (FieldOrExpr.fieldStr name) false = "detections" ∧
      _write_temporal_detection_clips name lt samples
        = Except.error ⟨name, tdSupportedTypes, lt⟩ ∧
      classifyClips isFrameField isFrameSupportField
        FieldOrExpr.intervalLists false = "manual" := by
  refine ⟨?_, ?_, rfl⟩
  · simp [classifyClips, h1, h2]
  · simp [_write_temporal_detection_clips, h3]

/-- Witness for `classify_sample_field_detections` at a concrete input. -/
theorem classify_sample_field_detections_witness :
    classifyClips (fun _ => false) (fun _ => false)
        (FieldOrExpr.fieldStr "sections") false = "detections" ∧
      _write_temporal_detection_clips "sections" LabelType.polylines []
        = Except.error ⟨"sections", tdSupportedTypes, LabelType.polylines⟩ ∧
      classifyClips (fun _ => false) (fun _ => false)
        FieldOrExpr.intervalLists false = "manual" :=
  classify_sample_field_detections "sections" (fun _ => false)
    (fun _ => false) LabelType.polylines [] rfl rfl (by decide)

/-- C5 counterexample: under the temporal-detection strategy the pipeline
sets each clip's `_id` to the source label document's `_id` (clips.py line
610: `"_id": "$" + field + "._id"`), so the clip materialized from the label
with id 42 itself has id 42 — the id of an existing source label document,
not a freshly generated synthetic id. -/
theorem clip_id_equals_label_id_cex :
    _write_temporal_detection_clips "events" LabelType.temporalDetection
        [⟨7, [⟨42, (1, 5)⟩]⟩]
      = Except.ok [⟨42, 7, (1, 5), "Classification"⟩] := by
  rfl

/-- C5 (amended): every clip record produced by make_clips_dataset has a
fresh, synthetic id, except under the temporal-detection strategy, where each
materialized clip carries exactly the id of the source label document it was
derived from (together with that sample's id and the label's support) — this
id reuse is what lets `_sync_source` later address source labels by clip
id. -/
theorem td_clip_ids_are_label_ids (field : String) (lt : LabelType)
    (samples : List TDSample) (out : List ClipRecord)
    (hout : _write_temporal_detection_clips field lt samples
      = Except.ok out) :
    ∀ r ∈ out, ∃ s ∈ samples, ∃ d ∈ s.dets,
      r.id = d.id ∧ r.sampleId = s.id ∧ r.support = d.support := by
  simp only [_write_temporal_detection_clips] at hout
  by_cases h : lt ∈ tdSupportedTypes
  · rw [if_pos h, Except.ok.injEq] at hout
    subst hout
    intro r hr
    simp only [List.mem_flatMap, List.mem_map] at hr
    obtain ⟨s, hs, d, hd, rfl⟩ := hr
    exact ⟨s, hs, d, hd, rfl, rfl, rfl⟩
  · rw [if_neg h] at hout
    exact absurd hout (by simp)

/-- Witness for `td_clip_ids_are_label_ids` at a concrete input. -/
theorem td_clip_ids_are_label_ids_witness :
    ∃ s ∈ [(⟨7, [⟨42, (1, 5)⟩]⟩ : TDSample)], ∃ d ∈ s.dets,
      (⟨42, 7, (1, 5), "Classification"⟩ : ClipRecord).id = d.id ∧
        (⟨42, 7, (1, 5), "Classification"⟩ : ClipRecord).sampleId = s.id ∧
        (⟨42, 7, (1, 5), "Classification"⟩ : ClipRecord).support = d.support :=
  td_clip_ids_are_label_ids "events" LabelType.temporalDetection
    [⟨7, [⟨42, (1, 5)⟩]⟩] [⟨42, 7, (1, 5), "Classification"⟩] (by rfl)
    ⟨42, 7, (1, 5), "Classification"⟩ (by decide)

/-- C9: dispatching the temporal-detection or trajectories strategy on a
field whose declared label type is outside the supported set
(TemporalDetection/TemporalDetections resp. Detections/Polylines/Keypoints)
raises the `ValueError` before any materialization — the `Except.error`
result carries no clip records and no executed statements — and the error
names the offending field, the supported-type set, and the actual type. -/
theorem unsupported_label_type_raises (fieldA fieldB : String)
    (lt lt2 : LabelType) (samples : List TDSample) (aggOk : Bool)
    (h1 : lt ∉ tdSupportedTypes) (h2 : lt2 ∉ trajSupportedTypes) :
    _write_temporal_detection_clips fieldA lt samples
        = Except.error ⟨fieldA, tdSupportedTypes, lt⟩ ∧
      _write_trajectories fieldB lt2 aggOk
        = Except.error ⟨fieldB, trajSupportedTypes, lt2⟩ := by
  constructor
  · simp [_write_temporal_detection_clips, h1]
  · simp [_write_trajectories, h2]

/-- Witness for `unsupported_label_type_raises` at a concrete input. -/
theorem unsupported_label_type_raises_witness :
    _write_temporal_detection_clips "events2" LabelType.keypoints []
        = Except.error ⟨"events2", tdSupportedTypes, LabelType.keypoints⟩ ∧
      _write_trajectories "cars" LabelType.temporalDetection true
        = Except.error
            ⟨"cars", trajSupportedTypes, LabelType.temporalDetection⟩ :=
  unsupported_label_type_raises "events2" "cars" LabelType.keypoints
    LabelType.temporalDetection [] true (by decide) (by decide)

lemma insertOnce_nodup {l : List Nat} (h : l.Nodup) (x : Nat) :
    (insertOnce l x).Nodup := by
  unfold insertOnce
  split
  · exact h
  · rename_i hx
    rw [List.nodup_append]
    refine ⟨h, List.nodup_singleton x, ?_⟩
    intro a ha hax
    rw [List.mem_singleton] at hax
    subst hax
    exact hx ha

lemma mem_insertOnce_self (l : List Nat) (x : Nat) : x ∈ insertOnce l x := by
  unfold insertOnce
  split
  · assumption
  · simp

lemma mem_insertOnce_of_mem {l : List Nat} {y : Nat} (h : y ∈ l) (x : Nat) :
    y ∈ insertOnce l x := by
  unfold insertOnce
  split
  · exact h
  · exact List.mem_append_left _ h

lemma mem_insertOnce_iff (l : List Nat) (x y : Nat) :
    y ∈ insertOnce l x ↔ y ∈ l ∨ y = x := by
  unfold insertOnce
  split
  · rename_i hx
    constructor
    · exact Or.inl
    · rintro (h | rfl)
      · exact h
      · exact hx
  · simp [List.mem_append]

lemma syncDelFold_nodup (updateIds : List Nat) :
    ∀ (allClips : List (Nat × Nat)) (d : List Nat), d.Nodup →
      (allClips.foldl
        (fun acc p => if p.2 ∈ updateIds then acc else insertOnce acc p.1)
        d).Nodup := by
  intro allClips
  induction allClips with
  | nil => exact fun d h => h
  | cons p rest ih =>
      intro d hd
      rw [List.foldl_cons]
      refine ih _ ?_
      show (if p.2 ∈ updateIds then d else insertOnce d p.1).Nodup
      split
      · exact hd
      · exact insertOnce_nodup hd p.1

lemma syncDelFold_mono (updateIds : List Nat) :
    ∀ (allClips : List (Nat × Nat)) (d : List Nat) (y : Nat), y ∈ d →
      y ∈ allClips.foldl
        (fun acc p => if p.2 ∈ updateIds then acc else insertOnce acc p.1)
        d := by
  intro allClips
  induction allClips with
  | nil => exact fun d y h => h
  | cons p rest ih =>
      intro d y hy
      rw [List.foldl_cons]
      refine ih _ y ?_
      show y ∈ (if p.2 ∈ updateIds then d else insertOnce d p.1)
      split
      · exact hy
      · exact mem_insertOnce_of_mem hy p.1

lemma syncDelFold_mem (updateIds : List Nat) :
    ∀ (allClips : List (Nat × Nat)) (d : List Nat),
      ∀ p ∈ allClips, p.2 ∉ updateIds →
        p.1 ∈ allClips.foldl
          (fun acc q => if q.2 ∈ updateIds then acc else insertOnce acc q.1)
          d := by
  intro allClips
  induction allClips with
  | nil =>
      intro d p hp
      exact absurd hp (List.not_mem_nil p)
  | cons q rest ih =>
      intro d p hp hnot
      rw [List.foldl_cons]
      rcases List.mem_cons.mp hp with rfl | hp'
      · refine syncDelFold_mono updateIds rest _ p.1 ?_
        show p.1 ∈ (if p.2 ∈ updateIds then d else insertOnce d p.1)
        rw [if_neg hnot]
        exact mem_insertOnce_self d p.1
      · exact ih _ p hp' hnot

lemma syncDelFold_mem_iff (updateIds : List Nat) :
    ∀ (allClips : List (Nat × Nat)) (d : List Nat) (x : Nat),
      x ∈ allClips.foldl
          (fun acc q => if q.2 ∈ updateIds then acc else insertOnce acc q.1) d
        ↔ x ∈ d ∨ ∃ p ∈ allClips, p.1 = x ∧ p.2 ∉ updateIds := by
  intro allClips
  induction allClips with
  | nil => intro d x; simp
  | cons q rest ih =>
      intro d x
      rw [List.foldl_cons]
      by_cases hq : q.2 ∈ updateIds
      · rw [if_pos hq, ih]
        constructor
        · rintro (h | ⟨p, hp, hpx, hpu⟩)
          · exact Or.inl h
          · exact Or.inr ⟨p, List.mem_cons_of_mem _ hp, hpx, hpu⟩
        · rintro (h | ⟨p, hp, hpx, hpu⟩)
          · exact Or.inl h
          · rcases List.mem_cons.mp hp with rfl | hp'
            · exact absurd hq hpu
            · exact Or.inr ⟨p, hp', hpx, hpu⟩
      · rw [if_neg hq, ih, mem_insertOnce_iff]
        constructor
        · rintro ((h | rfl) | ⟨p, hp, hpx, hpu⟩)
          · exact Or.inl h
          · exact Or.inr ⟨q, List.mem_cons_self _ _, rfl, hq⟩
          · exact Or.inr ⟨p, List.mem_cons_of_mem _ hp, hpx, hpu⟩
        · rintro (h | ⟨p, hp, hpx, hpu⟩)
          · exact Or.inl (Or.inl h)
          · rcases List.mem_cons.mp hp with rfl | hp'
            · exact Or.inl (Or.inr hpx.symm)
            · exact Or.inr ⟨p, hp', hpx, hpu⟩

lemma syncLoopStep_none {acc : List Nat × List SyncDoc × List Nat}
    {c : ClipRec} (h : c.doc = none) :
    syncLoopStep acc c = (acc.1, acc.2.1, insertOnce acc.2.2 c.id) := by
  simp [syncLoopStep, h]

lemma syncLoopStep_some {acc : List Nat × List SyncDoc × List Nat}
    {c : ClipRec} {d : String} (h : c.doc = some d) :
    syncLoopStep acc c
      = (acc.1 ++ [c.sampleId], acc.2.1 ++ [⟨d, c.support⟩], acc.2.2) := by
  simp [syncLoopStep, h]

lemma syncLoop_aux :
    ∀ (cs : List ClipRec) (u : List Nat) (ds : List SyncDoc) (dl : List Nat),
      (cs.foldl syncLoopStep (u, ds, dl)).1
          = u ++ cs.filterMap (fun c => c.doc.map (fun _ => c.sampleId)) ∧
        (dl.Nodup → (cs.foldl syncLoopStep (u, ds, dl)).2.2.Nodup) := by
  intro cs
  induction cs with
  | nil =>
      intro u ds dl
      exact ⟨by simp, fun h => h⟩
  | cons c rest ih =>
      intro u ds dl
      rw [List.foldl_cons]
      cases hdoc : c.doc with
      | none =>
          rw [syncLoopStep_none hdoc]
          dsimp only
          refine ⟨?_, ?_⟩
          · rw [(ih u ds (insertOnce dl c.id)).1]
            simp [List.filterMap_cons, hdoc]
          · intro h
            exact (ih u ds (insertOnce dl c.id)).2 (insertOnce_nodup h c.id)
      | some d =>
          rw [syncLoopStep_some hdoc]
          dsimp only
          refine ⟨?_, ?_⟩
          · have h2 := (ih (u ++ [c.sampleId])
                (ds ++ [{ payload := d, support := c.support }]) dl).1
            rw [h2]
            simp [List.filterMap_cons, hdoc]
          · exact (ih _ _ dl).2

lemma syncLoop_delIds_mem :
    ∀ (cs : List ClipRec) (u : List Nat) (ds : List SyncDoc) (dl : List Nat)
      (x : Nat),
      x ∈ (cs.foldl syncLoopStep (u, ds, dl)).2.2
        ↔ x ∈ dl ∨ ∃ c ∈ cs, c.doc = none ∧ c.id = x := by
  intro cs
  induction cs with
  | nil => intro u ds dl x; simp
  | cons c rest ih =>
      intro u ds dl x
      rw [List.foldl_cons]
      cases hdoc : c.doc with
      | none =>
          rw [syncLoopStep_none hdoc]
          dsimp only
          rw [ih, mem_insertOnce_iff]
          constructor
          · rintro ((h | rfl) | ⟨c', hc', hd', hi'⟩)
            · exact Or.inl h
            · exact Or.inr ⟨c, List.mem_cons_self _ _, hdoc, rfl⟩
            · exact Or.inr ⟨c', List.mem_cons_of_mem _ hc', hd', hi'⟩
          · rintro (h | ⟨c', hc', hd', hi'⟩)
            · exact Or.inl (Or.inl h)
            · rcases List.mem_cons.mp hc' with rfl | hc''
              · exact Or.inl (Or.inr hi'.symm)
              · exact Or.inr ⟨c', hc'', hd', hi'⟩
      | some d =>
          rw [syncLoopStep_some hdoc]
          dsimp only
          have h2 := ih (u ++ [c.sampleId])
            (ds ++ [{ payload := d, support := c.support }]) dl x
          rw [h2]
          constructor
          · rintro (h | ⟨c', hc', hd', hi'⟩)
            · exact Or.inl h
            · exact Or.inr ⟨c', List.mem_cons_of_mem _ hc', hd', hi'⟩
          · rintro (h | ⟨c', hc', hd', hi'⟩)
            · exact Or.inl h
            · rcases List.mem_cons.mp hc' with rfl | hc''
              · rw [hdoc] at hd'
                exact absurd hd' (by simp)
              · exact Or.inr ⟨c', hc'', hd', hi'⟩

/-- C2 counterexample: the delete pass of `keep()` keys on *sample* ids, not
clip ids: with two clips (label ids 1 and 2) of the same sample 100 and a
view retaining only the doc-bearing clip 1, clip 2 is excluded from the view
yet `keep()` emits no `_delete_labels` call at all — its source label is not
removed. -/
theorem keep_excluded_clip_not_deleted_cex :
    clipsViewKeepEffects (some "events") [⟨1, 100, (1, 5), some "d"⟩]
        [(1, 100), (2, 100)] = [] := by
  rfl

/-- C2 (amended): during `keep()` on a temporal-detection-strategy view, the
label of a clip record of the underlying clips dataset that is excluded by
the view's stages is removed only when its `sample_id` is not among the
sample ids of the doc-bearing clips of the view — an excluded clip sharing
its sample with a retained doc-bearing clip is *not* deleted.  Precisely, a
label id is deleted iff it belongs to a doc-less clip of the view, or to a
record of the clips dataset whose `sample_id` is unobserved among the
doc-bearing view clips; the delete set is duplicate-free, so each label id is
deleted exactly once, in a single `_delete_labels` call emitted only when the
set is nonempty. -/
theorem keep_deletes_unobserved_exactly_once (field : String)
    (viewClips : List ClipRec) (allClips : List (Nat × Nat)) :
    (syncLoop viewClips).1
        = viewClips.filterMap (fun c => c.doc.map (fun _ => c.sampleId)) ∧
      (syncDelIds true (syncLoop viewClips).1 (syncLoop viewClips).2.2
          allClips).Nodup ∧
      (∀ x : Nat,
        x ∈ syncDelIds true (syncLoop viewClips).1 (syncLoop viewClips).2.2
            allClips
          ↔ (∃ c ∈ viewClips, c.doc = none ∧ c.id = x)
            ∨ ∃ p ∈ allClips, p.1 = x ∧ p.2 ∉ (syncLoop viewClips).1) ∧
      clipsViewKeepEffects (some field) viewClips allClips
        = (if (syncDelIds true (syncLoop viewClips).1
                (syncLoop viewClips).2.2 allClips).isEmpty then []
           else
             [SrcEffect.deleteLabels
               (syncDelIds true (syncLoop viewClips).1
                 (syncLoop viewClips).2.2 allClips) [field]]) := by
  have haux := syncLoop_aux viewClips [] [] []
  refine ⟨by simpa [syncLoop] using haux.1, ?_, ?_, ?_⟩
  · unfold syncDelIds
    rw [if_pos rfl]
    exact syncDelFold_nodup _ allClips _ (haux.2 List.nodup_nil)
  · intro x
    unfold syncDelIds
    rw [if_pos rfl]
    rw [syncDelFold_mem_iff]
    rw [show (syncLoop viewClips).2.2
        = (viewClips.foldl syncLoopStep ([], [], [])).2.2 from rfl]
    rw [syncLoop_delIds_mem]
    simp
  · simp [clipsViewKeepEffects, _sync_source, syncSourceBody]

/-- Witness for `keep_deletes_unobserved_exactly_once` at a concrete input:
label 3 (docless clip in the view) and label 4 (clip of the unobserved
sample 300) are both in the delete set, which is duplicate-free. -/
theorem keep_deletes_unobserved_exactly_once_witness :
    (4 : Nat) ∈ syncDelIds true
        (syncLoop [⟨1, 100, (1, 5), some "d"⟩, ⟨3, 200, (2, 4), none⟩]).1
        (syncLoop [⟨1, 100, (1, 5), some "d"⟩, ⟨3, 200, (2, 4), none⟩]).2.2
        [(1, 100), (2, 100), (3, 200), (4, 300)] ∧
      (syncDelIds true
        (syncLoop [⟨1, 100, (1, 5), some "d"⟩, ⟨3, 200, (2, 4), none⟩]).1
        (syncLoop [⟨1, 100, (1, 5), some "d"⟩, ⟨3, 200, (2, 4), none⟩]).2.2
        [(1, 100), (2, 100), (3, 200), (4, 300)]).Nodup :=
  ⟨((keep_deletes_unobserved_exactly_once "events"
        [⟨1, 100, (1, 5), some "d"⟩, ⟨3, 200, (2, 4), none⟩]
        [(1, 100), (2, 100), (3, 200), (4, 300)]).2.2.1 4).mpr
      (Or.inr ⟨(4, 300), by decide, rfl, by decide⟩),
    (keep_deletes_unobserved_exactly_once "events"
        [⟨1, 100, (1, 5), some "d"⟩, ⟨3, 200, (2, 4), none⟩]
        [(1, 100), (2, 100), (3, 200), (4, 300)]).2.1⟩

/-- C10: when the clips stage field does not validate as a
`TemporalDetection`/`TemporalDetections` field of the source collection (so
the classification field is unset), every sync hook is a no-op on the source
collection: `ClipView.save()`, `ClipsView.save()`, `ClipsView.set_values()`
and `ClipsView.keep()` emit no source label writes or deletions. -/
theorem sync_noop_without_td_field
    (schemaLabelType : String → Option LabelType) (stageField : String)
    (h : ∀ lt, schemaLabelType stageField = some lt → lt ∉ tdSupportedTypes)
    (sampleId : Nat) (support : Int × Int) (cls : Option String)
    (fields : Option (List String)) (fieldName : String)
    (viewClips : List ClipRec) (allClips : List (Nat × Nat)) :
    _get_temporal_detection_field schemaLabelType stageField = none ∧
      clipViewSaveEffects
          (_get_temporal_detection_field schemaLabelType stageField)
          sampleId support cls = [] ∧
      clipsViewSaveEffects
          (_get_temporal_detection_field schemaLabelType stageField)
          fields viewClips allClips = [] ∧
      clipsViewSetValuesEffects
          (_get_temporal_detection_field schemaLabelType stageField)
          fieldName viewClips allClips = [] ∧
      clipsViewKeepEffects
          (_get_temporal_detection_field schemaLabelType stageField)
          viewClips allClips = [] := by
  have hcf : _get_temporal_detection_field schemaLabelType stageField
      = none := by
    unfold _get_temporal_detection_field
    cases hs : schemaLabelType stageField with
    | none => rfl
    | some lt =>
        show (if lt ∈ tdSupportedTypes then some stageField else none) = none
        rw [if_neg (h lt hs)]
  rw [hcf]
  exact ⟨rfl, rfl, rfl, rfl, rfl⟩

/-- Witness for `sync_noop_without_td_field` at a concrete input (a schema
whose field resolves to a `Detections` type). -/
theorem sync_noop_without_td_field_witness :
    _get_temporal_detection_field (fun _ => some LabelType.detections)
        "dets" = none ∧
      clipViewSaveEffects
          (_get_temporal_detection_field (fun _ => some LabelType.detections)
            "dets") 5 (1, 3) (some "c") = [] ∧
      clipsViewSaveEffects
          (_get_temporal_detection_field (fun _ => some LabelType.detections)
            "dets") none [⟨1, 100, (1, 5), some "d"⟩] [(1, 100)] = [] ∧
      clipsViewSetValuesEffects
          (_get_temporal_detection_field (fun _ => some LabelType.detections)
            "dets") "events.label" [⟨1, 100, (1, 5), some "d"⟩]
          [(1, 100)] = [] ∧
      clipsViewKeepEffects
          (_get_temporal_detection_field (fun _ => some LabelType.detections)
            "dets") [⟨1, 100, (1, 5), some "d"⟩] [(1, 100)] = [] :=
  sync_noop_without_td_field (fun _ => some LabelType.detections) "dets"
    (fun lt hlt => by
      injection hlt with h1
      subst h1
      decide)
    5 (1, 3) (some "c") none "events.label" [⟨1, 100, (1, 5), some "d"⟩]
    [(1, 100)]
